import Mathlib

/-!
Verification development for the BloomDash incremental-ingestion core:
a shallow embedding of `src/data/storage/db.py` (checkpoint stores) and
`src/data/sources/yfinance.py` (normalizer and ingestion orchestrator),
with theorems settling the spec claims about them.

Dates are stored as `YYYY-MM-DD` text both in SQLite and in the
normalized frames; SQLite `MAX` and pandas comparisons on such text are
lexicographic (by code point), which coincides with chronological order
for zero-padded dates.  Floating-point cell values are embedded as exact
decimals (integer mantissa over a power of ten): the sources only move
these values around and truncate them to integers, so no claim depends
on binary float rounding.  String operations from the Python standard
library (`split`, `strip`, `lower`, `replace`, numeric parsing) are
given direct structural implementations over character lists.
-/

namespace BloomDash

/-- An exact decimal value `mantissa / 10 ^ exp`, embedding the float
cell values the pipeline moves around. -/
structure Dec where
  mantissa : ℤ
  exp : ℕ
deriving DecidableEq, Repr

/-- Python `int()` / pandas `.astype("int64")` on a decimal: truncation
toward zero. -/
def decTrunc (d : Dec) : ℤ :=
  if 0 ≤ d.mantissa then d.mantissa / ((10 : ℤ) ^ d.exp)
  else -((-d.mantissa) / ((10 : ℤ) ^ d.exp))

/-- An integer viewed as a decimal. -/
def Dec.ofInt (n : ℤ) : Dec := ⟨n, 0⟩

/-- A scalar cell of a pandas DataFrame: a number, a string, or a null
(`None`/`NaN`/`NaT`). -/
inductive Cell where
  | num  (d : Dec)
  | text (s : String)
  | null
deriving DecidableEq, Repr

/-- Whether a cell is a string cell. -/
def Cell.isText : Cell → Bool
  | .text _ => true
  | _ => false

/-- Model of Python `str()` on a cell value: strings are unchanged,
`None` prints as `"None"`, numbers by a decimal rendering. -/
def cellStr : Cell → String
  | .text s => s
  | .null => "None"
  | .num d => toString d.mantissa ++ "e-" ++ toString d.exp

/-! ### String primitives (structural implementations) -/

/-- Lexicographic `≤` on character lists by code point, the collation
SQLite `MAX` and Python string comparison use. -/
def charListLe : List Char → List Char → Bool
  | [], _ => true
  | _ :: _, [] => false
  | a :: as_, b :: bs =>
    if a.toNat < b.toNat then true
    else if b.toNat < a.toNat then false
    else charListLe as_ bs

/-- Lexicographic `≤` on strings. -/
def strLeB (a b : String) : Bool := charListLe a.data b.data

/-- The larger of two strings under lexicographic order. -/
def strMax (a b : String) : String := if strLeB a b then b else a

/-- Split a character list on a separator character
(Python `str.split(sep)` for a one-character separator). -/
def splitChar (sep : Char) : List Char → List (List Char)
  | [] => [[]]
  | c :: rest =>
    match splitChar sep rest with
    | [] => [[]]
    | g :: gs => if c = sep then [] :: g :: gs else (c :: g) :: gs

/-- The numeric value of a digit list (little reading, base 10). -/
def digitsVal (l : List Char) : ℕ := l.foldl (fun a c => a * 10 + (c.toNat - 48)) 0

/-- Parse a non-empty all-digit character list as a natural number. -/
def digitsToNat? (l : List Char) : Option ℕ :=
  if l ≠ [] ∧ l.all Char.isDigit then some (digitsVal l) else none

/-- Strip leading and trailing spaces (Python `str.strip()` restricted
to the space character, the only whitespace in provider column names). -/
def trimChars (l : List Char) : List Char :=
  ((l.dropWhile (· = ' ')).reverse.dropWhile (· = ' ')).reverse

/-- ASCII lowercase of one character (Python `str.lower()` restricted to
ASCII, which covers provider column names). -/
def lowerChar (c : Char) : Char :=
  if 65 ≤ c.toNat ∧ c.toNat ≤ 90 then Char.ofNat (c.toNat + 32) else c

/-- Replace every occurrence of a non-empty pattern, left to right
(Python `str.replace`), with an explicit fuel for termination. -/
def replaceAllAux (pat rep : List Char) : ℕ → List Char → List Char
  | 0, l => l
  | _ + 1, [] => []
  | fuel + 1, c :: rest =>
    if pat.isPrefixOf (c :: rest) then
      rep ++ replaceAllAux pat rep fuel ((c :: rest).drop pat.length)
    else c :: replaceAllAux pat rep fuel rest

/-- Python `str.replace(pat, rep)` for a non-empty pattern. -/
def replaceAll (pat rep l : List Char) : List Char :=
  if pat.isEmpty then l else replaceAllAux pat rep l.length l

/-- Python `", ".join(l)`. -/
def joinComma : List String → String
  | [] => ""
  | [x] => x
  | x :: rest => x ++ ", " ++ joinComma rest

/-! ### Dates -/

/-- A calendar date (year, month, day). -/
structure Date where
  year : ℕ
  month : ℕ
  day : ℕ
deriving DecidableEq, Repr

/-- Gregorian leap-year rule. -/
def isLeap (y : ℕ) : Bool := (y % 4 == 0 && y % 100 != 0) || y % 400 == 0

/-- Number of days in a month of a given year. -/
def daysInMonth (y m : ℕ) : ℕ :=
  if m = 2 then (if isLeap y then 29 else 28)
  else if m = 4 ∨ m = 6 ∨ m = 9 ∨ m = 11 then 30
  else 31

/-- Zero-pad a number to two digits. -/
def pad2 (n : ℕ) : String := if n < 10 then "0" ++ toString n else toString n

/-- Zero-pad a number to four digits. -/
def pad4 (n : ℕ) : String :=
  if n < 10 then "000" ++ toString n
  else if n < 100 then "00" ++ toString n
  else if n < 1000 then "0" ++ toString n
  else toString n

/-- Model of `strftime("%Y-%m-%d")`. -/
def formatYMD (d : Date) : String :=
  pad4 d.year ++ "-" ++ pad2 d.month ++ "-" ++ pad2 d.day

/-- Model of ISO-date parsing (`strptime("%Y-%m-%d")`, and
`pd.to_datetime` restricted to the ISO string dates this pipeline
stores): a 4-digit year and numeric month/day within calendar range. -/
def parseYMD (s : String) : Option Date :=
  match splitChar '-' s.data with
  | [ys, ms, ds] =>
    if ys.length = 4 then
      match digitsToNat? ys, digitsToNat? ms, digitsToNat? ds with
      | some y, some m, some d =>
        if 1 ≤ m ∧ m ≤ 12 ∧ 1 ≤ d ∧ d ≤ daysInMonth y m then some ⟨y, m, d⟩
        else none
      | _, _, _ => none
    else none
  | _ => none

/-- Model of `pd.to_datetime(col, errors="coerce")` on one cell: string
cells are parsed as ISO dates, anything else coerces to `NaT` (`none`).
(Numeric epoch offsets are not exercised by this pipeline.) -/
def parseDateCell : Cell → Option Date
  | .text s => parseYMD s
  | _ => none

/-- Model of `pd.to_numeric` on a decimal string: optional sign, digit
part, optional fractional digit part. -/
def parseDecString (s : String) : Option Dec :=
  let (sgn, t) : ℤ × List Char :=
    match s.data with
    | '-' :: rest => (-1, rest)
    | l => (1, l)
  match splitChar '.' t with
  | [a] => (digitsToNat? a).map (fun n => ⟨sgn * n, 0⟩)
  | [a, b] =>
    match digitsToNat? a, digitsToNat? b with
    | some n, some m => some ⟨sgn * (n * 10 ^ b.length + m), b.length⟩
    | _, _ => none
  | _ => none

/-- Model of `pd.to_numeric(col, errors="coerce")` on one cell:
coercion failures become nulls (`none`). -/
def parseNumCell : Cell → Option Dec
  | .num d => some d
  | .text s => parseDecString s
  | .null => none

/-- SQL `MAX` aggregation step over a nullable accumulator. -/
def omax (a : Option String) (d : String) : Option String :=
  match a with
  | none => some d
  | some x => some (strMax x d)

/-- SQL `MAX` over a column of dates: `NULL` (`none`) on the empty
column, else the lexicographic maximum. -/
def listMaxD (l : List String) : Option String := l.foldl omax none

/-- Order on nullable checkpoint dates: absent is below everything. -/
def oLe : Option String → Option String → Prop
  | none, _ => True
  | some _, none => False
  | some x, some y => strLeB x y = true

instance (a b : Option String) : Decidable (oLe a b) :=
  match a, b with
  | none, _ => isTrue trivial
  | some _, none => isFalse (fun h => h)
  | some x, some y => inferInstanceAs (Decidable (strLeB x y = true))

/-! ### Price checkpoint store (`last_dates` table, db.py lines 9–111) -/

/-- One input row of a price frame handed to `upsert_price_last_dates`
(columns ticker, date, open, high, low, close, adj_close, volume);
numeric fields are nullable. -/
structure PriceRow where
  ticker : String
  date : String
  «open» : Option Dec
  high : Option Dec
  low : Option Dec
  close : Option Dec
  adj_close : Option Dec
  volume : Option Dec
deriving DecidableEq, Repr

/-- One stored row of the `last_dates` SQLite table
(primary key `(ticker, date)`). -/
structure PriceEntry where
  ticker : String
  date : String
  «open» : Option Dec
  high : Option Dec
  low : Option Dec
  close : Option Dec
  adj_close : Option Dec
  volume : Option ℤ
deriving DecidableEq, Repr

/-- `INSERT ... ON CONFLICT(ticker, date) DO UPDATE`: replace the row
with the conflicting primary key, else append. -/
def priceInsert : List PriceEntry → PriceEntry → List PriceEntry
  | [], e => [e]
  | o :: rest, e =>
    if o.ticker = e.ticker ∧ o.date = e.date then e :: rest
    else o :: priceInsert rest e

/-- `get_last_price_date`: `SELECT MAX(date) FROM last_dates WHERE
ticker = ?` (db.py lines 42–61). -/
def get_last_price_date (db : List PriceEntry) (ticker : String) : Option String :=
  listMaxD ((db.filter (fun e => e.ticker = ticker)).map (·.date))

/-- Stable ascending insertion by date, modelling
`df.sort_values("date")`. -/
def insByDate (r : PriceRow) : List PriceRow → List PriceRow
  | [] => [r]
  | x :: xs => if strLeB r.date x.date then r :: x :: xs else x :: insByDate r xs

/-- `df.sort_values("date")` on a price frame. -/
def sortByDate (l : List PriceRow) : List PriceRow := l.foldr insByDate []

/-- The tuple bound into the `last_dates` insert (db.py lines 98–107):
`float(...) if pd.notna(...) else None` on each numeric field and
`int(...)` on volume. -/
def priceEntryOf (r : PriceRow) : PriceEntry :=
  { ticker := r.ticker, date := r.date, «open» := r.«open», high := r.high,
    low := r.low, close := r.close, adj_close := r.adj_close,
    volume := r.volume.map decTrunc }

/-- `upsert_price_last_dates` (db.py lines 64–111): empty or `None`
input is a no-op returning `None`; otherwise sort by date, take the last
row, upsert it under `(ticker, date)` and return its date. -/
def upsert_price_last_dates (db : List PriceEntry) (df : Option (List PriceRow)) :
    List PriceEntry × Option String :=
  match df with
  | none => (db, none)
  | some rows =>
    if rows.isEmpty then (db, none)
    else
      match (sortByDate rows).getLast? with
      | none => (db, none)
      | some r => (priceInsert db (priceEntryOf r), some r.date)

/-! ### Macro checkpoint store (`last_dates_fred` table, db.py lines 241–337) -/

/-- One input row for `upsert_fred_last_dates`
(zone, date, cpi, gdp, policy, unemp). -/
structure FredRow where
  zone : String
  date : String
  cpi : Option Dec
  gdp : Option Dec
  policy : Option Dec
  unemp : Option Dec
deriving DecidableEq, Repr

/-- One stored row of the `last_dates_fred` table
(primary key `(zone, date)`). -/
structure FredEntry where
  zone : String
  date : String
  cpi : Option Dec
  gdp : Option Dec
  policy : Option Dec
  unemp : Option Dec
deriving DecidableEq, Repr

/-- Conflict-replace on `(zone, date)` for the macro table. -/
def fredInsert : List FredEntry → FredEntry → List FredEntry
  | [], e => [e]
  | o :: rest, e =>
    if o.zone = e.zone ∧ o.date = e.date then e :: rest
    else o :: fredInsert rest e

/-- `get_last_fred_date`: `SELECT MAX(date) FROM last_dates_fred WHERE
zone = ?` (db.py lines 272–291). -/
def get_last_fred_date (db : List FredEntry) (zone : String) : Option String :=
  listMaxD ((db.filter (fun e => e.zone = zone)).map (·.date))

/-- Stable ascending insertion by date on macro rows. -/
def insByDateF (r : FredRow) : List FredRow → List FredRow
  | [] => [r]
  | x :: xs => if strLeB r.date x.date then r :: x :: xs else x :: insByDateF r xs

/-- `df.sort_values("date")` on a macro frame. -/
def sortByDateF (l : List FredRow) : List FredRow := l.foldr insByDateF []

/-- Number of `?` placeholders in the `last_dates_fred` INSERT statement
(db.py line 318: `VALUES (?, ?, ?, ?, ?, ?, ?, ?)`). -/
def fredPlaceholders : ℕ := 8

/-- The parameter tuple built for that INSERT (db.py lines 326–333):
zone, date and the four nullable numeric fields — six values. -/
def fredParams (r : FredRow) : List Cell :=
  [Cell.text r.zone, Cell.text r.date,
   (r.cpi.map Cell.num).getD Cell.null,
   (r.gdp.map Cell.num).getD Cell.null,
   (r.policy.map Cell.num).getD Cell.null,
   (r.unemp.map Cell.num).getD Cell.null]

/-- `upsert_fred_last_dates` (db.py lines 294–337).  `sqlite3` refuses a
statement whose supplied parameter count differs from its placeholder
count (`ProgrammingError`), modelled as the error branch. -/
def upsert_fred_last_dates (db : List FredEntry) (df : Option (List FredRow)) :
    Except String (List FredEntry × Option String) :=
  match df with
  | none => .ok (db, none)
  | some rows =>
    if rows.isEmpty then .ok (db, none)
    else
      match (sortByDateF rows).getLast? with
      | some r =>
        if (fredParams r).length = fredPlaceholders then
          .ok (fredInsert db
            { zone := r.zone, date := r.date, cpi := r.cpi, gdp := r.gdp,
              policy := r.policy, unemp := r.unemp }, some r.date)
        else
          .error "sqlite3.ProgrammingError: Incorrect number of bindings supplied. The current statement uses 8, and there are 6 supplied."
      | none => .ok (db, none)

/-! ### Feature checkpoint store (`feature_last_dates` table, db.py lines 114–237) -/

/-- One stored row of the `feature_last_dates` table
(primary key `(feature, ticker)`). -/
structure FeatureEntry where
  feature : String
  ticker : String
  date : String
deriving DecidableEq, Repr

/-- `INSERT ... ON CONFLICT(feature, ticker) DO UPDATE SET date =
excluded.date` (db.py lines 229–234). -/
def featInsert : List FeatureEntry → String → String → String → List FeatureEntry
  | [], f, t, d => [⟨f, t, d⟩]
  | e :: rest, f, t, d =>
    if e.feature = f ∧ e.ticker = t then ⟨f, t, d⟩ :: rest
    else e :: featInsert rest f t d

/-- `get_last_feature_date`: `SELECT date FROM feature_last_dates WHERE
feature = ? AND ticker = ?` then `fetchone()` (db.py lines 144–165). -/
def get_last_feature_date (db : List FeatureEntry) (f t : String) : Option String :=
  (db.find? (fun e => decide (e.feature = f ∧ e.ticker = t))).map (·.date)

/-- A pandas DataFrame, column-oriented: named columns of cells
(rectangular; the row count is the common column length). -/
structure DataFrame where
  cols : List (String × List Cell)
deriving DecidableEq, Repr

/-- The column labels, `df.columns`. -/
def DataFrame.columns (df : DataFrame) : List String := df.cols.map (·.1)

/-- `df.empty`: true when the frame has no columns or no rows. -/
def DataFrame.isEmptyDF (df : DataFrame) : Bool :=
  df.cols.isEmpty || ((df.cols.head?.map (·.2.length)).getD 0 == 0)

/-- `df[name]`: the first column carrying the label. -/
def DataFrame.getCol (df : DataFrame) (name : String) : List Cell :=
  ((df.cols.find? (fun p => decide (p.1 = name))).map (·.2)).getD []

/-- Ascending insertion of a string into a sorted list. -/
def insSorted (x : String) : List String → List String
  | [] => [x]
  | y :: ys => if strLeB x y then x :: y :: ys else y :: insSorted x ys

/-- `sorted(...)` on a list of strings. -/
def sortStr (l : List String) : List String := l.foldr insSorted []

/-- `sorted({ticker_col, date_col} - set(df.columns))` from db.py line
220: the missing labels among the two required ones, deduplicated and
sorted. -/
def missingSorted (tc dc : String) (cols : List String) : List String :=
  sortStr (([tc, dc].dedup).filter (fun c => ¬ cols.contains c))

/-- The `(ticker_cell, formatted_date)` pairs that survive
`pd.to_datetime(..., errors="coerce")` + `notna` filtering +
`strftime("%Y-%m-%d")` (db.py lines 223–226). -/
def featPairs (df : DataFrame) (tc dc : String) : List (Cell × String) :=
  ((df.getCol tc).zip ((df.getCol dc).map parseDateCell)).filterMap
    (fun p => p.2.map (fun d => (p.1, formatYMD d)))

/-- The dates associated with one ticker cell among the surviving pairs. -/
def datesFor (pairs : List (Cell × String)) (c : Cell) : List String :=
  pairs.filterMap (fun p => if p.1 = c then some p.2 else none)

/-- `df.groupby(ticker_col)[date_col].max()` (db.py line 228): for each
distinct ticker cell, the maximum surviving date. -/
def feat_last_by (pairs : List (Cell × String)) : List (Cell × String) :=
  ((pairs.map Prod.fst).dedup).filterMap
    (fun c => (listMaxD (datesFor pairs c)).map (fun d => (c, d)))

/-- The `(str(ticker), str(last_date))` write list executed against the
store (db.py lines 235–236). -/
def featWrites (df : DataFrame) (tc dc : String) : List (String × String) :=
  (feat_last_by (featPairs df tc dc)).map (fun p => (cellStr p.1, p.2))

/-- `upsert_feature_last_dates` (db.py lines 190–237): no-op on
`None`/empty input; `KeyError` naming the missing required columns;
otherwise one conflict-replacing write per distinct ticker. -/
def upsert_feature_last_dates (db : List FeatureEntry) (feature : String)
    (df : Option DataFrame) (tc dc : String) : Except String (List FeatureEntry) :=
  match df with
  | none => .ok db
  | some df =>
    if df.isEmptyDF then .ok db
    else if ¬ df.columns.contains tc ∨ ¬ df.columns.contains dc then
      .error ("Missing columns: " ++ joinComma (missingSorted tc dc df.columns))
    else
      .ok ((featWrites df tc dc).foldl (fun d p => featInsert d feature p.1 p.2) db)

/-! ### Normalizer (`normalize_yf`, yfinance.py lines 73–141) -/

/-- A raw yfinance frame after the flat-column case: a date index and
named value columns (`reset_index` turns the index into the first
column, labelled `date`). -/
structure RawFrame where
  index : List Cell
  cols : List (String × List Cell)
deriving DecidableEq, Repr

/-- The canonical output column order (yfinance.py line 84). -/
def yfCols : List String :=
  ["ticker", "date", "year", "open", "high", "low", "close", "adj_close", "volume"]

/-- The fields required of the canonicalized raw table
(yfinance.py line 117). -/
def yfRequired : List String :=
  ["date", "open", "high", "low", "close", "adj_close", "volume"]

/-- The `_norm` column renamer (yfinance.py lines 106–109): strip,
rewrite `Adj Close` to `Adj_Close`, lowercase, spaces to underscores. -/
def pyNormName (s : String) : String :=
  ⟨replaceAll " ".data "_".data
    (List.map lowerChar
      (replaceAll "Adj Close".data "Adj_Close".data (trimChars s.data)))⟩

/-- Canonicalized columns: the date index first, all labels renamed,
then the `adjclose` fallback rename (yfinance.py lines 100–115). -/
def yfCanonCols (raw : RawFrame) : List (String × List Cell) :=
  let out := (("date", raw.index) :: raw.cols).map (fun p => (pyNormName p.1, p.2))
  if (out.any (fun p => p.1 == "adjclose")) && !(out.any (fun p => p.1 == "adj_close")) then
    out.map (fun p => if p.1 == "adjclose" then ("adj_close", p.2) else p)
  else out

/-- Select the first column carrying a label. -/
def yfColOf (cols : List (String × List Cell)) (n : String) : List Cell :=
  ((cols.find? (fun p => decide (p.1 = n))).map (·.2)).getD []

/-- A normalized canonical price row (yfinance.py line 81): identifying
fields never null; the five float fields nullable; `volume` an `int64`.
-/
structure NormRow where
  ticker : String
  date : String
  year : ℤ
  «open» : Option Dec
  high : Option Dec
  low : Option Dec
  close : Option Dec
  adj_close : Option Dec
  volume : ℤ
deriving DecidableEq, Repr

/-- A normalized frame: its column labels and its rows. -/
structure NormFrame where
  columns : List String
  rows : List NormRow
deriving DecidableEq, Repr

/-- One output row (yfinance.py lines 127–139): formatted date, year
from the parsed date, `to_numeric(errors="coerce")` on the five float
fields, and `to_numeric(...).fillna(0).astype("int64")` on volume. -/
def mkNormRow (ticker : String) (d : Date) (o h l c a v : Cell) : NormRow :=
  { ticker := ticker, date := formatYMD d, year := (d.year : ℤ),
    «open» := parseNumCell o, high := parseNumCell h, low := parseNumCell l,
    close := parseNumCell c, adj_close := parseNumCell a,
    volume := decTrunc ((parseNumCell v).getD ⟨0, 0⟩) }

/-- Walk the columns in parallel, keeping exactly the positions whose
date parsed (the `notna` mask of yfinance.py lines 122–125). -/
def buildRows (ticker : String) :
    List (Option Date) → List Cell → List Cell → List Cell → List Cell →
    List Cell → List Cell → List NormRow
  | d? :: ds, o :: os, h :: hs, l :: ls, c :: cs, a :: as_, v :: vs =>
    match d? with
    | some d => mkNormRow ticker d o h l c a v :: buildRows ticker ds os hs ls cs as_ vs
    | none => buildRows ticker ds os hs ls cs as_ vs
  | _, _, _, _, _, _, _ => []

/-- `normalize_yf` (yfinance.py lines 73–141).  `None`/empty input and a
canonicalized table missing a required field both yield the empty
canonical frame; otherwise rows are built under the date-parse mask. -/
def normalize_yf (df : Option RawFrame) (ticker : String) : NormFrame :=
  match df with
  | none => ⟨yfCols, []⟩
  | some raw =>
    if raw.index.isEmpty || raw.cols.isEmpty then ⟨yfCols, []⟩
    else
      let out := yfCanonCols raw
      if ¬ yfRequired.all (fun r => (out.map (·.1)).contains r) then ⟨yfCols, []⟩
      else
        ⟨yfCols,
          buildRows ticker ((yfColOf out "date").map parseDateCell)
            (yfColOf out "open") (yfColOf out "high") (yfColOf out "low")
            (yfColOf out "close") (yfColOf out "adj_close") (yfColOf out "volume")⟩

/-- View a normalized row's numeric field uniformly as a nullable
number (volume, an `int64`, is never null by construction). -/
def NormRow.numField (r : NormRow) : String → Option Dec
  | "open" => r.«open»
  | "high" => r.high
  | "low" => r.low
  | "close" => r.close
  | "adj_close" => r.adj_close
  | "volume" => some (Dec.ofInt r.volume)
  | _ => none

/-- A normalized row viewed as an upsert input row (`main` passes the
normalized frame straight to `upsert_price_last_dates`). -/
def toPriceRow (r : NormRow) : PriceRow :=
  { ticker := r.ticker, date := r.date, «open» := r.«open», high := r.high,
    low := r.low, close := r.close, adj_close := r.adj_close,
    volume := some (Dec.ofInt r.volume) }

/-! ### Ingestion orchestrator (`main`, yfinance.py lines 145–171) -/

/-- `datetime + timedelta(days=1)`: the calendar successor. -/
def nextDay (d : Date) : Date :=
  if d.day < daysInMonth d.year d.month then { d with day := d.day + 1 }
  else if d.month < 12 then { year := d.year, month := d.month + 1, day := 1 }
  else { year := d.year + 1, month := 1, day := 1 }

/-- `datetime - timedelta(days=1)`: the calendar predecessor. -/
def prevDay (d : Date) : Date :=
  if 1 < d.day then { d with day := d.day - 1 }
  else if 1 < d.month then
    { year := d.year, month := d.month - 1, day := daysInMonth d.year (d.month - 1) }
  else { year := d.year - 1, month := 12, day := 31 }

/-- `datetime - timedelta(days=n)`: `n` calendar predecessors. -/
def subDays (d : Date) : ℕ → Date
  | 0 => d
  | n + 1 => prevDay (subDays d n)

/-- Strict lexicographic order on calendar dates. -/
def dateLt (a b : Date) : Prop :=
  a.year < b.year ∨ (a.year = b.year ∧
    (a.month < b.month ∨ (a.month = b.month ∧ a.day < b.day)))

/-- The fetch-window start of `main` (yfinance.py lines 152–159): with
no checkpoint, `now - timedelta(days=30)` formatted; with a checkpoint,
`strptime(last) + timedelta(days=1)` formatted (`none` models the
`strptime` exception on an unparseable stored date). -/
def computeFetchStart (now : Date) (last : Option String) : Option String :=
  match last with
  | none => some (formatYMD (subDays now 30))
  | some s => (parseYMD s).map (fun d => formatYMD (nextDay d))

/-- The two durable stores `main` touches per ticker. -/
structure IngestState where
  priceDB : List PriceEntry
  dataset : List PriceRow
deriving DecidableEq, Repr

/-- Modelled from the spec: `append_prices_dataset`
(`data/storage/parquet.py`, absent from the sources) — durably appends
canonical rows into the dataset, deduplicating by the `(ticker, date)`
primary key with last-write-wins, and returns the written count. -/
def append_prices_dataset (ds : List PriceRow) (rows : List PriceRow) :
    List PriceRow × ℕ :=
  (rows.foldl (fun acc r =>
      if acc.any (fun o => decide (o.ticker = r.ticker ∧ o.date = r.date)) then
        acc.map (fun o => if o.ticker = r.ticker ∧ o.date = r.date then r else o)
      else acc ++ [r]) ds,
   rows.length)

/-- A durable write issued by `main` for one ticker. -/
inductive WriteOp where
  | checkpoint (rows : List PriceRow)
  | append (rows : List PriceRow)
deriving DecidableEq, Repr

/-- The writes of one ticker's iteration in source order: yfinance.py
line 164 (`upsert_price_last_dates`) runs before line 165
(`append_prices_dataset`). -/
def mainKeyWriteOrder (rows : List PriceRow) : List WriteOp :=
  [WriteOp.checkpoint rows, WriteOp.append rows]

/-- Apply one durable write to the two stores. -/
def applyOp (s : IngestState) : WriteOp → IngestState
  | .checkpoint rows =>
    { s with priceDB := (upsert_price_last_dates s.priceDB (some rows)).1 }
  | .append rows =>
    { s with dataset := (append_prices_dataset s.dataset rows).1 }

/-- Run only the first `k` writes of one ticker's iteration: the state
observed when the cycle is aborted after `k` durable writes. -/
def runFirstWrites (s : IngestState) (rows : List PriceRow) (k : ℕ) : IngestState :=
  ((mainKeyWriteOrder rows).take k).foldl applyOp s

/-- The last value associated with a key in a write list (the value a
sequence of conflict-replacing writes leaves behind). -/
def lastAssoc : List (String × String) → String → Option String
  | [], _ => none
  | p :: rest, t =>
    match lastAssoc rest t with
    | some d => some d
    | none => if p.1 = t then some p.2 else none

/-- The dates stored for one ticker, the column `MAX` ranges over. -/
def tickerDates (db : List PriceEntry) (t : String) : List String :=
  (db.filter (fun e => e.ticker = t)).map (·.date)

/-! ## Helper lemmas -/

lemma charListLe_refl : ∀ l : List Char, charListLe l l = true
  | [] => rfl
  | c :: rest => by simp [charListLe, charListLe_refl rest]

lemma charListLe_total : ∀ a b : List Char, charListLe a b = true ∨ charListLe b a = true
  | [], _ => Or.inl rfl
  | _ :: _, [] => Or.inr rfl
  | a :: as_, b :: bs => by
    rcases Nat.lt_trichotomy a.toNat b.toNat with h | h | h
    · left; simp [charListLe, h]
    · rcases charListLe_total as_ bs with ih | ih
      · left; simp [charListLe, h, ih]
      · right; simp [charListLe, h.symm, ih]
    · right; simp [charListLe, h]

lemma charListLe_trans : ∀ a b c : List Char,
    charListLe a b = true → charListLe b c = true → charListLe a c = true
  | [], _, _ => by intro _ _; rfl
  | _ :: _, [], _ => by intro h _; simp [charListLe] at h
  | _ :: _, _ :: _, [] => by intro _ h; simp [charListLe] at h
  | a :: as_, b :: bs, c :: cs => by
    intro h1 h2
    simp only [charListLe] at h1 h2 ⊢
    by_cases hab : a.toNat < b.toNat
    · by_cases hbc : b.toNat < c.toNat
      · simp [show a.toNat < c.toNat by omega]
      · by_cases hcb : c.toNat < b.toNat
        · rw [if_neg hbc, if_pos hcb] at h2
          exact absurd h2 (by simp)
        · simp [show a.toNat < c.toNat by omega]
    · by_cases hba : b.toNat < a.toNat
      · rw [if_neg hab, if_pos hba] at h1
        exact absurd h1 (by simp)
      · by_cases hbc : b.toNat < c.toNat
        · simp [show a.toNat < c.toNat by omega]
        · by_cases hcb : c.toNat < b.toNat
          · rw [if_neg hbc, if_pos hcb] at h2
            exact absurd h2 (by simp)
          · rw [if_neg hab, if_neg hba] at h1
            rw [if_neg hbc, if_neg hcb] at h2
            rw [if_neg (show ¬ a.toNat < c.toNat by omega),
               if_neg (show ¬ c.toNat < a.toNat by omega)]
            exact charListLe_trans as_ bs cs h1 h2

lemma strLeB_refl (a : String) : strLeB a a = true := charListLe_refl a.data

lemma strLeB_total (a b : String) : strLeB a b = true ∨ strLeB b a = true :=
  charListLe_total a.data b.data

lemma strLeB_trans {a b c : String} (h1 : strLeB a b = true) (h2 : strLeB b c = true) :
    strLeB a c = true :=
  charListLe_trans a.data b.data c.data h1 h2

lemma strMax_left (a d : String) : strLeB a (strMax a d) = true := by
  unfold strMax
  split
  · assumption
  · exact strLeB_refl a

lemma strMax_right (a d : String) : strLeB d (strMax a d) = true := by
  unfold strMax
  split
  · exact strLeB_refl d
  · rcases strLeB_total a d with h | h
    · simp_all
    · exact h

lemma strMax_choice (a d : String) : strMax a d = a ∨ strMax a d = d := by
  unfold strMax
  split
  · exact Or.inr rfl
  · exact Or.inl rfl

lemma oLe_refl (a : Option String) : oLe a a := by
  cases a with
  | none => trivial
  | some x => exact strLeB_refl x

lemma foldl_omax_char : ∀ (l : List String) (a : String),
    ∃ m, l.foldl omax (some a) = some m ∧ (m = a ∨ m ∈ l) ∧
      strLeB a m = true ∧ ∀ x ∈ l, strLeB x m = true
  | [], a => ⟨a, rfl, Or.inl rfl, strLeB_refl a, by simp⟩
  | d :: l, a => by
    obtain ⟨m, hm, hmem, hle, hall⟩ := foldl_omax_char l (strMax a d)
    refine ⟨m, hm, ?_, ?_, ?_⟩
    · rcases hmem with h | h
      · rcases strMax_choice a d with h2 | h2
        · exact Or.inl (h.trans h2)
        · exact Or.inr (by simp [h, h2])
      · exact Or.inr (by simp [h])
    · exact strLeB_trans (strMax_left a d) hle
    · intro x hx
      rcases List.mem_cons.1 hx with h | h
      · exact h ▸ strLeB_trans (strMax_right a d) hle
      · exact hall x h

lemma listMaxD_spec {l : List String} {m : String} (h : listMaxD l = some m) :
    m ∈ l ∧ ∀ x ∈ l, strLeB x m = true := by
  cases l with
  | nil => simp [listMaxD] at h
  | cons d rest =>
    obtain ⟨m', hm', hmem, hle, hall⟩ := foldl_omax_char rest d
    have : listMaxD (d :: rest) = some m' := hm'
    rw [this] at h
    cases h
    refine ⟨?_, ?_⟩
    · rcases hmem with h | h
      · simp [h]
      · simp [h]
    · intro x hx
      rcases List.mem_cons.1 hx with h | h
      · exact h ▸ hle
      · exact hall x h

lemma listMaxD_isSome {l : List String} (h : l ≠ []) : ∃ m, listMaxD l = some m := by
  cases l with
  | nil => exact absurd rfl h
  | cons d rest =>
    obtain ⟨m, hm, -⟩ := foldl_omax_char rest d
    exact ⟨m, hm⟩

lemma listMaxD_mono {l1 l2 : List String} (hsub : ∀ x ∈ l1, x ∈ l2) :
    oLe (listMaxD l1) (listMaxD l2) := by
  cases l1 with
  | nil => exact trivial
  | cons d rest =>
    have h2 : l2 ≠ [] := by
      intro h
      exact absurd (hsub d (by simp)) (by simp [h])
    obtain ⟨m1, hm1⟩ := listMaxD_isSome (l := d :: rest) (by simp)
    obtain ⟨m2, hm2⟩ := listMaxD_isSome h2
    obtain ⟨hmem1, -⟩ := listMaxD_spec hm1
    obtain ⟨-, hall2⟩ := listMaxD_spec hm2
    rw [hm1, hm2]
    exact hall2 m1 (hsub m1 hmem1)

lemma get_last_price_eq (db : List PriceEntry) (t : String) :
    get_last_price_date db t = listMaxD (tickerDates db t) := rfl

lemma tickerDates_cons (e : PriceEntry) (db : List PriceEntry) (t : String) :
    tickerDates (e :: db) t =
      if e.ticker = t then e.date :: tickerDates db t else tickerDates db t := by
  unfold tickerDates
  rw [List.filter_cons]
  split
  · rename_i h
    rw [if_pos (by simpa using h)]
    rfl
  · rename_i h
    rw [if_neg (by simpa using h)]

lemma tickerDates_priceInsert (db : List PriceEntry) (e : PriceEntry) (t : String) :
    ∀ x ∈ tickerDates db t, x ∈ tickerDates (priceInsert db e) t := by
  induction db with
  | nil => simp [tickerDates]
  | cons o rest ih =>
    intro x hx
    unfold priceInsert
    by_cases hc : o.ticker = e.ticker ∧ o.date = e.date
    · rw [if_pos hc]
      rw [tickerDates_cons] at hx ⊢
      rw [← hc.1, ← hc.2]
      exact hx
    · rw [if_neg hc]
      rw [tickerDates_cons] at hx ⊢
      split at hx
      · rename_i ho
        rw [if_pos ho]
        rcases List.mem_cons.1 hx with h | h
        · exact h ▸ List.mem_cons_self _ _
        · exact List.mem_cons_of_mem _ (ih x h)
      · rename_i ho
        rw [if_neg ho]
        exact ih x hx

lemma get_price_priceInsert_mono (db : List PriceEntry) (e : PriceEntry) (t : String) :
    oLe (get_last_price_date db t) (get_last_price_date (priceInsert db e) t) := by
  rw [get_last_price_eq, get_last_price_eq]
  exact listMaxD_mono (tickerDates_priceInsert db e t)

lemma get_feat_cons (e : FeatureEntry) (db : List FeatureEntry) (f t : String) :
    get_last_feature_date (e :: db) f t =
      if e.feature = f ∧ e.ticker = t then some e.date
      else get_last_feature_date db f t := by
  unfold get_last_feature_date
  rw [List.find?_cons]
  by_cases h : e.feature = f ∧ e.ticker = t
  · rw [decide_eq_true h, if_pos h]
    rfl
  · rw [decide_eq_false h, if_neg h]

lemma get_featInsert (db : List FeatureEntry) (f t d f' t' : String) :
    get_last_feature_date (featInsert db f t d) f' t' =
      if f = f' ∧ t = t' then some d else get_last_feature_date db f' t' := by
  induction db with
  | nil =>
    show get_last_feature_date [⟨f, t, d⟩] f' t' = _
    rw [get_feat_cons]
  | cons o rest ih =>
    show get_last_feature_date
        (if o.feature = f ∧ o.ticker = t then ⟨f, t, d⟩ :: rest
         else o :: featInsert rest f t d) f' t' = _
    by_cases hc : o.feature = f ∧ o.ticker = t
    · rw [if_pos hc, get_feat_cons, get_feat_cons]
      show (if f = f' ∧ t = t' then some d else _) = _
      by_cases h : f = f' ∧ t = t'
      · rw [if_pos h, if_pos h]
      · have hno : ¬ (o.feature = f' ∧ o.ticker = t') := by
          intro ho
          exact h ⟨hc.1 ▸ ho.1, hc.2 ▸ ho.2⟩
        rw [if_neg h, if_neg h, if_neg hno]
    · rw [if_neg hc, get_feat_cons, get_feat_cons, ih]
      by_cases ho : o.feature = f' ∧ o.ticker = t'
      · have h : ¬ (f = f' ∧ t = t') := by
          intro h
          exact hc ⟨h.1 ▸ ho.1, h.2 ▸ ho.2⟩
        rw [if_pos ho, if_pos ho, if_neg h]
      · rw [if_neg ho, if_neg ho]

lemma lastAssoc_cons (p : String × String) (rest : List (String × String)) (t : String) :
    lastAssoc (p :: rest) t =
      match lastAssoc rest t with
      | some d => some d
      | none => if p.1 = t then some p.2 else none := rfl

lemma get_fold_featInsert (l : List (String × String)) :
    ∀ (db : List FeatureEntry) (f t : String),
    get_last_feature_date (l.foldl (fun d p => featInsert d f p.1 p.2) db) f t =
      match lastAssoc l t with
      | some d => some d
      | none => get_last_feature_date db f t := by
  induction l with
  | nil => intro db f t; rfl
  | cons p rest ih =>
    intro db f t
    show get_last_feature_date
        (rest.foldl (fun d p => featInsert d f p.1 p.2) (featInsert db f p.1 p.2)) f t = _
    rw [ih, lastAssoc_cons]
    cases hr : lastAssoc rest t with
    | some d => rfl
    | none =>
      show get_last_feature_date (featInsert db f p.1 p.2) f t = _
      rw [get_featInsert]
      by_cases h : p.1 = t
      · rw [if_pos ⟨rfl, h⟩, if_pos h]
      · rw [if_neg (fun hc => h hc.2), if_neg h]

lemma lastAssoc_of_not_mem {l : List (String × String)} {t : String}
    (h : t ∉ l.map Prod.fst) : lastAssoc l t = none := by
  induction l with
  | nil => rfl
  | cons p rest ih =>
    rw [lastAssoc_cons, ih (fun hm => h (by simp [hm]))]
    rw [if_neg (fun hp => h (by simp [hp]))]

lemma lastAssoc_of_nodup {l : List (String × String)} {t d : String}
    (hnd : (l.map Prod.fst).Nodup) (hmem : (t, d) ∈ l) : lastAssoc l t = some d := by
  induction l with
  | nil => exact absurd hmem (by simp)
  | cons p rest ih =>
    rw [List.map_cons, List.nodup_cons] at hnd
    rcases List.mem_cons.1 hmem with h | h
    · have hrest : lastAssoc rest t = none :=
        lastAssoc_of_not_mem (by rw [← h] at hnd; exact hnd.1)
      rw [lastAssoc_cons, hrest]
      rw [← h]
      simp
    · rw [lastAssoc_cons, ih hnd.2 h]

lemma lastAssoc_mem {l : List (String × String)} {t d : String}
    (h : lastAssoc l t = some d) : (t, d) ∈ l := by
  induction l with
  | nil => simp [lastAssoc] at h
  | cons p rest ih =>
    rw [lastAssoc_cons] at h
    cases hr : lastAssoc rest t with
    | some d' =>
      rw [hr] at h
      cases h
      exact List.mem_cons_of_mem _ (ih hr)
    | none =>
      rw [hr] at h
      by_cases hp : p.1 = t
      · rw [if_pos hp] at h
        cases h
        exact List.mem_cons.2 (Or.inl (by rw [← hp]))
      · rw [if_neg hp] at h
        cases h

lemma filterMap_pair_fst (l : List Cell) (g : Cell → Option String) :
    (l.filterMap (fun c => (g c).map (fun d => (c, d)))).map Prod.fst =
      l.filter (fun c => (g c).isSome) := by
  induction l with
  | nil => rfl
  | cons c rest ih =>
    rw [List.filterMap_cons, List.filter_cons]
    cases hg : g c with
    | none => simpa [hg] using ih
    | some d => simpa [hg] using ih

lemma mem_featPairs_fst {df : DataFrame} {tc dc : String} {p : Cell × String}
    (h : p ∈ featPairs df tc dc) : p.1 ∈ df.getCol tc := by
  obtain ⟨q, hq, hmap⟩ := List.mem_filterMap.1 h
  have h1 : q.1 ∈ df.getCol tc := (List.of_mem_zip hq).1
  cases hq2 : q.2 with
  | none => rw [hq2] at hmap; cases hmap
  | some d =>
    rw [hq2] at hmap
    cases hmap
    exact h1

lemma mem_pairs_fst_getCol {df : DataFrame} {tc dc : String} {x : Cell}
    (h : x ∈ (featPairs df tc dc).map Prod.fst) : x ∈ df.getCol tc := by
  obtain ⟨p, hp, hfst⟩ := List.mem_map.1 h
  exact hfst ▸ mem_featPairs_fst hp

lemma mem_datesFor {pairs : List (Cell × String)} {c : Cell} {p : Cell × String}
    (hp : p ∈ pairs) (hc : p.1 = c) : p.2 ∈ datesFor pairs c :=
  List.mem_filterMap.2 ⟨p, hp, by rw [if_pos hc]⟩

lemma datesFor_ne_nil {pairs : List (Cell × String)} {c : Cell}
    (h : c ∈ pairs.map Prod.fst) : datesFor pairs c ≠ [] := by
  obtain ⟨p, hp, hfst⟩ := List.mem_map.1 h
  intro hnil
  exact absurd (mem_datesFor hp hfst) (by simp [hnil])

lemma mem_feat_last_by {pairs : List (Cell × String)} {c : Cell} {m : String}
    (hc : c ∈ pairs.map Prod.fst) (hm : listMaxD (datesFor pairs c) = some m) :
    (c, m) ∈ feat_last_by pairs :=
  List.mem_filterMap.2 ⟨c, List.mem_dedup.2 hc, by rw [hm]; rfl⟩

lemma feat_last_by_fst_sub {pairs : List (Cell × String)} {c : Cell}
    (h : c ∈ (feat_last_by pairs).map Prod.fst) : c ∈ pairs.map Prod.fst := by
  unfold feat_last_by at h
  rw [filterMap_pair_fst] at h
  exact List.mem_dedup.1 (List.mem_of_mem_filter h)

lemma feat_last_by_fst_nodup (pairs : List (Cell × String)) :
    ((feat_last_by pairs).map Prod.fst).Nodup := by
  unfold feat_last_by
  rw [filterMap_pair_fst]
  exact (List.nodup_dedup _).filter _

lemma featWrites_fst_nodup {df : DataFrame} {tc dc : String}
    (htext : ∀ c ∈ df.getCol tc, c.isText = true) :
    ((featWrites df tc dc).map Prod.fst).Nodup := by
  unfold featWrites
  rw [List.map_map]
  have heq : ((feat_last_by (featPairs df tc dc)).map (Prod.fst ∘ fun p => (cellStr p.1, p.2)))
      = ((feat_last_by (featPairs df tc dc)).map Prod.fst).map cellStr := by
    rw [List.map_map]
    rfl
  rw [heq]
  refine List.Nodup.map_on ?_ (feat_last_by_fst_nodup _)
  intro x hx y hy hxy
  obtain ⟨sx, hsx⟩ : ∃ s, x = Cell.text s := by
    have := htext x (mem_pairs_fst_getCol (feat_last_by_fst_sub hx))
    cases x with
    | text s => exact ⟨s, rfl⟩
    | num d => simp [Cell.isText] at this
    | null => simp [Cell.isText] at this
  obtain ⟨sy, hsy⟩ : ∃ s, y = Cell.text s := by
    have := htext y (mem_pairs_fst_getCol (feat_last_by_fst_sub hy))
    cases y with
    | text s => exact ⟨s, rfl⟩
    | num d => simp [Cell.isText] at this
    | null => simp [Cell.isText] at this
  rw [hsx, hsy] at hxy ⊢
  simpa [cellStr] using hxy

lemma featPairs_eq_nil {df : DataFrame} {tc dc : String}
    (h : ∀ c ∈ df.getCol dc, parseDateCell c = none) : featPairs df tc dc = [] := by
  unfold featPairs
  rw [List.filterMap_eq_nil_iff]
  intro q hq
  have h2 : q.2 ∈ (df.getCol dc).map parseDateCell := (List.of_mem_zip hq).2
  obtain ⟨c, hc, hcq⟩ := List.mem_map.1 h2
  rw [← hcq, h c hc]
  rfl

lemma mem_insSorted (x y : String) (l : List String) :
    x ∈ insSorted y l ↔ x = y ∨ x ∈ l := by
  induction l with
  | nil => simp [insSorted]
  | cons z zs ih =>
    unfold insSorted
    split
    · simp
    · simp only [List.mem_cons, ih]
      tauto

lemma mem_sortStr (x : String) (l : List String) : x ∈ sortStr l ↔ x ∈ l := by
  induction l with
  | nil => simp [sortStr]
  | cons y ys ih =>
    show x ∈ insSorted y (sortStr ys) ↔ _
    rw [mem_insSorted, ih]
    simp

lemma upsert_feature_some (db : List FeatureEntry) (f : String) (df : DataFrame)
    (tc dc : String) :
    upsert_feature_last_dates db f (some df) tc dc =
      if df.isEmptyDF then .ok db
      else if ¬ df.columns.contains tc ∨ ¬ df.columns.contains dc then
        .error ("Missing columns: " ++ joinComma (missingSorted tc dc df.columns))
      else .ok ((featWrites df tc dc).foldl (fun d p => featInsert d f p.1 p.2) db) := rfl

lemma normalize_yf_some (raw : RawFrame) (t : String) :
    normalize_yf (some raw) t =
      if (raw.index.isEmpty || raw.cols.isEmpty) then ⟨yfCols, []⟩
      else if ¬ yfRequired.all (fun r => ((yfCanonCols raw).map (·.1)).contains r) then
        ⟨yfCols, []⟩
      else
        ⟨yfCols,
          buildRows t ((yfColOf (yfCanonCols raw) "date").map parseDateCell)
            (yfColOf (yfCanonCols raw) "open") (yfColOf (yfCanonCols raw) "high")
            (yfColOf (yfCanonCols raw) "low") (yfColOf (yfCanonCols raw) "close")
            (yfColOf (yfCanonCols raw) "adj_close") (yfColOf (yfCanonCols raw) "volume")⟩ :=
  rfl

/-! ## Claim theorems -/

/-- C1: the claim says the checkpoint write for a key happens only after
the dataset append of the same rows has succeeded.  The code does the
opposite: `main` calls `upsert_price_last_dates` (line 164) before
`append_prices_dataset` (line 165), so aborting after the first durable
write of a key leaves the checkpoint advanced to the new date while the
dataset still holds nothing. -/
theorem claim_C1_checkpoint_precedes_append :
    mainKeyWriteOrder
        [⟨"AAPL", "2024-01-02", some ⟨1, 0⟩, some ⟨2, 0⟩, some ⟨1, 0⟩,
          some ⟨2, 0⟩, some ⟨2, 0⟩, some ⟨100, 0⟩⟩] =
      [WriteOp.checkpoint [⟨"AAPL", "2024-01-02", some ⟨1, 0⟩, some ⟨2, 0⟩,
          some ⟨1, 0⟩, some ⟨2, 0⟩, some ⟨2, 0⟩, some ⟨100, 0⟩⟩],
       WriteOp.append [⟨"AAPL", "2024-01-02", some ⟨1, 0⟩, some ⟨2, 0⟩,
          some ⟨1, 0⟩, some ⟨2, 0⟩, some ⟨2, 0⟩, some ⟨100, 0⟩⟩]] ∧
    get_last_price_date ([] : List PriceEntry) "AAPL" = none ∧
    get_last_price_date
        (runFirstWrites ⟨[], []⟩
          [⟨"AAPL", "2024-01-02", some ⟨1, 0⟩, some ⟨2, 0⟩, some ⟨1, 0⟩,
            some ⟨2, 0⟩, some ⟨2, 0⟩, some ⟨100, 0⟩⟩] 1).priceDB "AAPL" =
      some "2024-01-02" ∧
    (runFirstWrites ⟨[], []⟩
        [⟨"AAPL", "2024-01-02", some ⟨1, 0⟩, some ⟨2, 0⟩, some ⟨1, 0⟩,
          some ⟨2, 0⟩, some ⟨2, 0⟩, some ⟨100, 0⟩⟩] 1).dataset = [] :=
  ⟨rfl, rfl, by decide, rfl⟩

/-- C2: the claim says `upsert_fred_last_dates` on non-empty ordered
rows stores and returns the maximum date.  In the code the INSERT for
`last_dates_fred` carries eight `?` placeholders but only six parameters
are bound, so `sqlite3` raises a `ProgrammingError` on every non-empty
input and nothing is ever stored or returned. -/
theorem claim_C2_fred_binding_mismatch :
    upsert_fred_last_dates []
        (some [⟨"US", "2024-01-05", some ⟨1, 0⟩, some ⟨2, 0⟩, some ⟨3, 0⟩, some ⟨4, 0⟩⟩]) =
      .error "sqlite3.ProgrammingError: Incorrect number of bindings supplied. The current statement uses 8, and there are 6 supplied." ∧
    (fredParams ⟨"US", "2024-01-05", some ⟨1, 0⟩, some ⟨2, 0⟩, some ⟨3, 0⟩, some ⟨4, 0⟩⟩).length = 6 ∧
    fredPlaceholders = 8 :=
  ⟨rfl, rfl, rfl⟩

/-- C3 (amended): for every NON-EMPTY table lacking the date column (or
the ticker column), `upsert_feature_last_dates` raises a `KeyError`
naming exactly the missing column(s); the empty-input no-op is checked
first, so an empty table missing those columns returns silently. -/
theorem claim_C3_missing_column_error (db : List FeatureEntry) (f : String)
    (df : DataFrame) (tc dc : String)
    (hne : df.isEmptyDF = false)
    (hmiss : ¬ df.columns.contains tc ∨ ¬ df.columns.contains dc) :
    upsert_feature_last_dates db f (some df) tc dc =
      .error ("Missing columns: " ++ joinComma (missingSorted tc dc df.columns)) ∧
    (¬ df.columns.contains tc → tc ∈ missingSorted tc dc df.columns) ∧
    (¬ df.columns.contains dc → dc ∈ missingSorted tc dc df.columns) := by
  refine ⟨?_, ?_, ?_⟩
  · rw [upsert_feature_some, if_neg (by simp [hne]), if_pos hmiss]
  · intro h
    unfold missingSorted
    rw [mem_sortStr, List.mem_filter]
    exact ⟨List.mem_dedup.2 (by simp), decide_eq_true h⟩
  · intro h
    unfold missingSorted
    rw [mem_sortStr, List.mem_filter]
    exact ⟨List.mem_dedup.2 (by simp), decide_eq_true h⟩

/-- C3 counterexample: the claim as stated quantifies over every table
lacking the date column, but an empty table lacking it does not raise —
the empty-input check precedes the column check, so the call returns
normally. -/
theorem claim_C3_cex :
    upsert_feature_last_dates [] "regime" (some ⟨[("ticker", [])]⟩) "ticker" "date" =
      .ok [] ∧
    ¬ ("date" ∈ DataFrame.columns ⟨[("ticker", [])]⟩) :=
  ⟨rfl, by decide⟩

/-- C3 witness: a one-row frame with only a ticker column raises
`KeyError("Missing columns: date")`. -/
theorem claim_C3_witness :
    DataFrame.isEmptyDF ⟨[("ticker", [Cell.text "AAPL"])]⟩ = false ∧
    joinComma (missingSorted "ticker" "date"
      (DataFrame.columns ⟨[("ticker", [Cell.text "AAPL"])]⟩)) = "date" ∧
    (upsert_feature_last_dates [] "regime" (some ⟨[("ticker", [Cell.text "AAPL"])]⟩)
        "ticker" "date" =
      .error ("Missing columns: " ++ joinComma (missingSorted "ticker" "date"
        (DataFrame.columns ⟨[("ticker", [Cell.text "AAPL"])]⟩))) ∧
    (¬ (DataFrame.columns ⟨[("ticker", [Cell.text "AAPL"])]⟩).contains "ticker" →
      "ticker" ∈ missingSorted "ticker" "date"
        (DataFrame.columns ⟨[("ticker", [Cell.text "AAPL"])]⟩)) ∧
    (¬ (DataFrame.columns ⟨[("ticker", [Cell.text "AAPL"])]⟩).contains "date" →
      "date" ∈ missingSorted "ticker" "date"
        (DataFrame.columns ⟨[("ticker", [Cell.text "AAPL"])]⟩))) :=
  ⟨rfl, rfl,
   claim_C3_missing_column_error [] "regime" ⟨[("ticker", [Cell.text "AAPL"])]⟩
     "ticker" "date" rfl (by decide)⟩

/-- C6: `get_last_price_date` on a never-checkpointed ticker returns
`None` without failing, and `upsert_price_last_dates` on `None` or an
empty row sequence returns `None` and leaves the store untouched. -/
theorem claim_C6_absent_on_empty (db : List PriceEntry) (t : String)
    (h : ∀ e ∈ db, e.ticker ≠ t) :
    get_last_price_date db t = none ∧
    upsert_price_last_dates db none = (db, none) ∧
    upsert_price_last_dates db (some []) = (db, none) := by
  refine ⟨?_, rfl, rfl⟩
  rw [get_last_price_eq]
  have hf : db.filter (fun e => decide (e.ticker = t)) = [] :=
    List.filter_eq_nil_iff.2 (fun e hme => by simpa using h e hme)
  have he : tickerDates db t = [] := by
    unfold tickerDates
    rw [hf]
    rfl
  rw [he]
  rfl

/-- C6 witness: a store holding only an MSFT checkpoint has no AAPL
checkpoint, and empty upserts are no-ops. -/
theorem claim_C6_witness :
    (∀ e ∈ [(⟨"MSFT", "2024-01-05", none, none, none, none, none, none⟩ : PriceEntry)],
      e.ticker ≠ "AAPL") ∧
    (get_last_price_date
        [⟨"MSFT", "2024-01-05", none, none, none, none, none, none⟩] "AAPL" = none ∧
     upsert_price_last_dates
        [⟨"MSFT", "2024-01-05", none, none, none, none, none, none⟩] none =
       ([⟨"MSFT", "2024-01-05", none, none, none, none, none, none⟩], none) ∧
     upsert_price_last_dates
        [⟨"MSFT", "2024-01-05", none, none, none, none, none, none⟩] (some []) =
       ([⟨"MSFT", "2024-01-05", none, none, none, none, none, none⟩], none)) :=
  ⟨by decide,
   claim_C6_absent_on_empty
     [⟨"MSFT", "2024-01-05", none, none, none, none, none, none⟩] "AAPL" (by decide)⟩

/-- C7: a raw table that after canonicalization lacks a required field
normalizes to the empty frame carrying exactly the canonical columns,
raising nothing, and feeding that empty result to the price-checkpoint
upsert leaves the store untouched. -/
theorem claim_C7_missing_required_field (raw : RawFrame) (t : String)
    (hmiss : yfRequired.all (fun r => ((yfCanonCols raw).map (·.1)).contains r) = false) :
    normalize_yf (some raw) t = ⟨yfCols, []⟩ ∧
    ∀ db, upsert_price_last_dates db
        (some ((normalize_yf (some raw) t).rows.map toPriceRow)) = (db, none) := by
  have h1 : normalize_yf (some raw) t = ⟨yfCols, []⟩ := by
    rw [normalize_yf_some]
    by_cases hb : (raw.index.isEmpty || raw.cols.isEmpty) = true
    · rw [if_pos hb]
    · rw [if_neg hb, if_pos (by rw [hmiss]; exact Bool.false_ne_true)]
  exact ⟨h1, fun db => by rw [h1]; rfl⟩

/-- C7 witness: a one-row raw table with only an `Open` column (no
`close`) normalizes to zero rows with the canonical columns. -/
theorem claim_C7_witness :
    yfRequired.all
      (fun r => ((yfCanonCols ⟨[Cell.text "2024-01-02"],
        [("Open", [Cell.num ⟨1, 0⟩])]⟩).map (·.1)).contains r) = false ∧
    (normalize_yf (some ⟨[Cell.text "2024-01-02"], [("Open", [Cell.num ⟨1, 0⟩])]⟩) "T" =
        ⟨yfCols, []⟩ ∧
     ∀ db, upsert_price_last_dates db
        (some ((normalize_yf (some ⟨[Cell.text "2024-01-02"],
          [("Open", [Cell.num ⟨1, 0⟩])]⟩) "T").rows.map toPriceRow)) = (db, none)) :=
  ⟨rfl,
   claim_C7_missing_required_field
     ⟨[Cell.text "2024-01-02"], [("Open", [Cell.num ⟨1, 0⟩])]⟩ "T" rfl⟩

/-- C10: a non-empty table with both required columns whose date values
all fail to parse drops every row, writes nothing, raises nothing and
returns normally. -/
theorem claim_C10_all_dates_unparseable (db : List FeatureEntry) (f : String)
    (df : DataFrame) (tc dc : String)
    (hne : df.isEmptyDF = false)
    (htc : df.columns.contains tc = true) (hdc : df.columns.contains dc = true)
    (hbad : ∀ c ∈ df.getCol dc, parseDateCell c = none) :
    upsert_feature_last_dates db f (some df) tc dc = .ok db := by
  rw [upsert_feature_some, if_neg (by simp [hne]),
     if_neg (fun hcon => hcon.elim (fun hh => hh htc) (fun hh => hh hdc))]
  unfold featWrites
  rw [featPairs_eq_nil hbad]
  rfl

/-- C10 witness: a one-row frame whose date cell is `"garbage"` leaves
the store unchanged and returns normally. -/
theorem claim_C10_witness :
    DataFrame.isEmptyDF
      ⟨[("ticker", [Cell.text "AAPL"]), ("date", [Cell.text "garbage"])]⟩ = false ∧
    (∀ c ∈ DataFrame.getCol
        ⟨[("ticker", [Cell.text "AAPL"]), ("date", [Cell.text "garbage"])]⟩ "date",
      parseDateCell c = none) ∧
    upsert_feature_last_dates [⟨"regime", "MSFT", "2024-01-05"⟩] "regime"
        (some ⟨[("ticker", [Cell.text "AAPL"]), ("date", [Cell.text "garbage"])]⟩)
        "ticker" "date" =
      .ok [⟨"regime", "MSFT", "2024-01-05"⟩] :=
  ⟨rfl, by decide,
   claim_C10_all_dates_unparseable [⟨"regime", "MSFT", "2024-01-05"⟩] "regime"
     ⟨[("ticker", [Cell.text "AAPL"]), ("date", [Cell.text "garbage"])]⟩
     "ticker" "date" rfl rfl rfl (by decide)⟩

/-- C4 counterexample: the feature-checkpoint upsert overwrites
unconditionally (`DO UPDATE SET date = excluded.date`), so a successful
upsert carrying only an older date moves the stored checkpoint from
2024-01-05 back to 2024-01-01 — the date read after the cycle is
strictly below the one read before it. -/
theorem claim_C4_cex :
    upsert_feature_last_dates [] "regime"
        (some ⟨[("ticker", [Cell.text "AAPL"]), ("date", [Cell.text "2024-01-05"])]⟩)
        "ticker" "date" = .ok [⟨"regime", "AAPL", "2024-01-05"⟩] ∧
    get_last_feature_date [⟨"regime", "AAPL", "2024-01-05"⟩] "regime" "AAPL" =
      some "2024-01-05" ∧
    upsert_feature_last_dates [⟨"regime", "AAPL", "2024-01-05"⟩] "regime"
        (some ⟨[("ticker", [Cell.text "AAPL"]), ("date", [Cell.text "2024-01-01"])]⟩)
        "ticker" "date" = .ok [⟨"regime", "AAPL", "2024-01-01"⟩] ∧
    get_last_feature_date [⟨"regime", "AAPL", "2024-01-01"⟩] "regime" "AAPL" =
      some "2024-01-01" ∧
    ¬ oLe (some "2024-01-05") (some "2024-01-01") :=
  ⟨rfl, rfl, rfl, rfl, by decide⟩

/-- C4 (amended): the price checkpoint date never decreases across any
upsert (the store only accumulates `(ticker, date)` rows and the read is
a `MAX`); the feature checkpoint never decreases provided every write
the cycle issues carries a date at or above the stored one — an upsert
whose rows for a ticker are all older lowers that ticker's checkpoint,
and the macro upsert never completes at all (see C2). -/
theorem claim_C4_monotonic (pdb : List PriceEntry) (pdf : Option (List PriceRow))
    (t : String) (fdb fdb' : List FeatureEntry) (f : String) (df : DataFrame)
    (tc dc : String)
    (hok : upsert_feature_last_dates fdb f (some df) tc dc = .ok fdb')
    (hge : ∀ s d, (s, d) ∈ featWrites df tc dc →
      oLe (get_last_feature_date fdb f s) (some d)) :
    oLe (get_last_price_date pdb t)
      (get_last_price_date (upsert_price_last_dates pdb pdf).1 t) ∧
    ∀ s, oLe (get_last_feature_date fdb f s) (get_last_feature_date fdb' f s) := by
  constructor
  · cases pdf with
    | none => exact oLe_refl _
    | some rows =>
      show oLe _ (get_last_price_date
        (if rows.isEmpty then (pdb, none)
         else match (sortByDate rows).getLast? with
           | none => (pdb, none)
           | some r => (priceInsert pdb (priceEntryOf r), some r.date)).1 t)
      by_cases hr : rows.isEmpty
      · rw [if_pos hr]
        exact oLe_refl _
      · rw [if_neg hr]
        cases hgl : (sortByDate rows).getLast? with
        | none => exact oLe_refl _
        | some r => exact get_price_priceInsert_mono pdb (priceEntryOf r) t
  · rw [upsert_feature_some] at hok
    by_cases he : df.isEmptyDF
    · rw [if_pos he] at hok
      cases hok
      exact fun s => oLe_refl _
    · rw [if_neg he] at hok
      by_cases hm : ¬ df.columns.contains tc ∨ ¬ df.columns.contains dc
      · rw [if_pos hm] at hok
        cases hok
      · rw [if_neg hm] at hok
        cases hok
        intro s
        rw [get_fold_featInsert]
        cases hl : lastAssoc (featWrites df tc dc) s with
        | none => exact oLe_refl _
        | some d => exact hge s d (lastAssoc_mem hl)

/-- C4 witness: a fresh feature store receiving a 2024-01-05 write and a
price store receiving one row both satisfy the monotonicity statement. -/
theorem claim_C4_witness :
    upsert_feature_last_dates [] "regime"
        (some ⟨[("ticker", [Cell.text "AAPL"]), ("date", [Cell.text "2024-01-05"])]⟩)
        "ticker" "date" = .ok [⟨"regime", "AAPL", "2024-01-05"⟩] ∧
    (oLe (get_last_price_date [] "AAPL")
      (get_last_price_date
        (upsert_price_last_dates []
          (some [⟨"AAPL", "2024-01-02", none, none, none, none, none, none⟩])).1 "AAPL") ∧
    ∀ s, oLe (get_last_feature_date [] "regime" s)
      (get_last_feature_date [⟨"regime", "AAPL", "2024-01-05"⟩] "regime" s)) :=
  ⟨rfl,
   claim_C4_monotonic [] (some [⟨"AAPL", "2024-01-02", none, none, none, none, none, none⟩])
     "AAPL" [] [⟨"regime", "AAPL", "2024-01-05"⟩] "regime"
     ⟨[("ticker", [Cell.text "AAPL"]), ("date", [Cell.text "2024-01-05"])]⟩
     "ticker" "date" rfl (fun _ _ _ => trivial)⟩

/-- C5 counterexample: the claim says every coercion failure becomes a
null, volume included.  A raw row whose volume cell is the unparseable
string `"abc"` normalizes to volume `0` (the column is filled with 0 and
cast to `int64`), not to a null. -/
theorem claim_C5_cex :
    (normalize_yf
        (some ⟨[Cell.text "2024-01-02"],
          [("Open", [Cell.num ⟨1, 0⟩]), ("High", [Cell.num ⟨1, 0⟩]),
           ("Low", [Cell.num ⟨1, 0⟩]), ("Close", [Cell.num ⟨1, 0⟩]),
           ("Adj Close", [Cell.num ⟨1, 0⟩]), ("Volume", [Cell.text "abc"])]⟩)
        "T").rows.map (fun r => r.numField "volume") = [some (Dec.ofInt 0)] ∧
    parseNumCell (Cell.text "abc") = none ∧
    (some (Dec.ofInt 0) : Option Dec) ≠ none :=
  ⟨by decide, by decide, by decide⟩

set_option maxHeartbeats 1600000 in
/-- C5 (amended): in `normalize_yf` each of the five float fields
(open, high, low, close, adj_close) is coerced with failures becoming
nulls, while volume is coerced with failures becoming 0 (the column is
non-nullable `int64`); the call never raises on unparseable values. -/
theorem claim_C5_coercion (t : String) (dc o h l c a v : Cell) (d : Date)
    (hd : parseDateCell dc = some d) :
    (normalize_yf
        (some ⟨[dc], [("open", [o]), ("high", [h]), ("low", [l]),
          ("close", [c]), ("adj_close", [a]), ("volume", [v])]⟩) t).rows =
      [mkNormRow t d o h l c a v] ∧
    (parseNumCell o = none → (mkNormRow t d o h l c a v).«open» = none) ∧
    (parseNumCell h = none → (mkNormRow t d o h l c a v).high = none) ∧
    (parseNumCell l = none → (mkNormRow t d o h l c a v).low = none) ∧
    (parseNumCell c = none → (mkNormRow t d o h l c a v).close = none) ∧
    (parseNumCell a = none → (mkNormRow t d o h l c a v).adj_close = none) ∧
    (parseNumCell v = none → (mkNormRow t d o h l c a v).volume = 0) := by
  refine ⟨?_, ?_, ?_, ?_, ?_, ?_, ?_⟩
  · have e : normalize_yf
        (some ⟨[dc], [("open", [o]), ("high", [h]), ("low", [l]),
          ("close", [c]), ("adj_close", [a]), ("volume", [v])]⟩) t =
        ⟨yfCols, buildRows t [parseDateCell dc] [o] [h] [l] [c] [a] [v]⟩ := rfl
    rw [e, hd]
    rfl
  · intro hx
    show parseNumCell o = none
    exact hx
  · intro hx
    show parseNumCell h = none
    exact hx
  · intro hx
    show parseNumCell l = none
    exact hx
  · intro hx
    show parseNumCell c = none
    exact hx
  · intro hx
    show parseNumCell a = none
    exact hx
  · intro hx
    show decTrunc ((parseNumCell v).getD ⟨0, 0⟩) = 0
    rw [hx]
    rfl

/-- C5 witness: a one-row frame with unparseable strings in every
numeric column yields nulls in the five float fields and 0 in volume. -/
theorem claim_C5_witness :
    parseDateCell (Cell.text "2024-01-03") = some ⟨2024, 1, 3⟩ ∧
    parseNumCell (Cell.text "n/a") = none ∧
    ((normalize_yf
        (some ⟨[Cell.text "2024-01-03"],
          [("open", [Cell.text "n/a"]), ("high", [Cell.text "n/a"]),
           ("low", [Cell.text "n/a"]), ("close", [Cell.text "n/a"]),
           ("adj_close", [Cell.text "n/a"]), ("volume", [Cell.text "n/a"])]⟩) "T").rows =
      [mkNormRow "T" ⟨2024, 1, 3⟩ (Cell.text "n/a") (Cell.text "n/a") (Cell.text "n/a")
        (Cell.text "n/a") (Cell.text "n/a") (Cell.text "n/a")] ∧
    (parseNumCell (Cell.text "n/a") = none →
      (mkNormRow "T" ⟨2024, 1, 3⟩ (Cell.text "n/a") (Cell.text "n/a") (Cell.text "n/a")
        (Cell.text "n/a") (Cell.text "n/a") (Cell.text "n/a")).«open» = none) ∧
    (parseNumCell (Cell.text "n/a") = none →
      (mkNormRow "T" ⟨2024, 1, 3⟩ (Cell.text "n/a") (Cell.text "n/a") (Cell.text "n/a")
        (Cell.text "n/a") (Cell.text "n/a") (Cell.text "n/a")).high = none) ∧
    (parseNumCell (Cell.text "n/a") = none →
      (mkNormRow "T" ⟨2024, 1, 3⟩ (Cell.text "n/a") (Cell.text "n/a") (Cell.text "n/a")
        (Cell.text "n/a") (Cell.text "n/a") (Cell.text "n/a")).low = none) ∧
    (parseNumCell (Cell.text "n/a") = none →
      (mkNormRow "T" ⟨2024, 1, 3⟩ (Cell.text "n/a") (Cell.text "n/a") (Cell.text "n/a")
        (Cell.text "n/a") (Cell.text "n/a") (Cell.text "n/a")).close = none) ∧
    (parseNumCell (Cell.text "n/a") = none →
      (mkNormRow "T" ⟨2024, 1, 3⟩ (Cell.text "n/a") (Cell.text "n/a") (Cell.text "n/a")
        (Cell.text "n/a") (Cell.text "n/a") (Cell.text "n/a")).adj_close = none) ∧
    (parseNumCell (Cell.text "n/a") = none →
      (mkNormRow "T" ⟨2024, 1, 3⟩ (Cell.text "n/a") (Cell.text "n/a") (Cell.text "n/a")
        (Cell.text "n/a") (Cell.text "n/a") (Cell.text "n/a")).volume = 0)) :=
  ⟨by decide, by decide,
   claim_C5_coercion "T" (Cell.text "2024-01-03") (Cell.text "n/a") (Cell.text "n/a")
     (Cell.text "n/a") (Cell.text "n/a") (Cell.text "n/a") (Cell.text "n/a")
     ⟨2024, 1, 3⟩ (by decide)⟩

/-- C8: with no checkpoint the fetch window start is exactly
`now - 30 days`; with a stored checkpoint it is exactly the checkpoint
date plus one day, which is strictly after the checkpoint date — the
checkpoint date itself is never re-fetched. -/
theorem claim_C8_fetch_window (now : Date) (s : String) (d : Date)
    (hparse : parseYMD s = some d) :
    computeFetchStart now none = some (formatYMD (subDays now 30)) ∧
    computeFetchStart now (some s) = some (formatYMD (nextDay d)) ∧
    dateLt d (nextDay d) := by
  refine ⟨rfl, ?_, ?_⟩
  · show (parseYMD s).map (fun d => formatYMD (nextDay d)) = _
    rw [hparse]
    rfl
  · unfold nextDay dateLt
    by_cases h1 : d.day < daysInMonth d.year d.month
    · rw [if_pos h1]
      exact Or.inr ⟨rfl, Or.inr ⟨rfl, Nat.lt_succ_self _⟩⟩
    · rw [if_neg h1]
      by_cases h2 : d.month < 12
      · rw [if_pos h2]
        exact Or.inr ⟨rfl, Or.inl (Nat.lt_succ_self _)⟩
      · rw [if_neg h2]
        exact Or.inl (Nat.lt_succ_self _)

/-- C8 witness: from 2024-03-15 the no-checkpoint start is 2024-02-14
(30 calendar days back across the leap day), and a 2024-02-28 checkpoint
starts the next fetch at 2024-02-29. -/
theorem claim_C8_witness :
    parseYMD "2024-02-28" = some ⟨2024, 2, 28⟩ ∧
    (computeFetchStart ⟨2024, 3, 15⟩ none =
        some (formatYMD (subDays ⟨2024, 3, 15⟩ 30)) ∧
     computeFetchStart ⟨2024, 3, 15⟩ (some "2024-02-28") =
        some (formatYMD (nextDay ⟨2024, 2, 28⟩)) ∧
     dateLt ⟨2024, 2, 28⟩ (nextDay ⟨2024, 2, 28⟩)) ∧
    formatYMD (subDays ⟨2024, 3, 15⟩ 30) = "2024-02-14" ∧
    formatYMD (nextDay ⟨2024, 2, 28⟩) = "2024-02-29" :=
  ⟨by decide,
   claim_C8_fetch_window ⟨2024, 3, 15⟩ "2024-02-28" ⟨2024, 2, 28⟩ (by decide),
   by decide, by decide⟩

/-- C9: one call with rows for several tickers writes one checkpoint per
distinct ticker — every ticker appearing with at least one parseable
date ends at the maximum of its formatted dates, and tickers absent from
the surviving input keep their previous checkpoint. -/
theorem claim_C9_per_ticker_max (db : List FeatureEntry) (f : String) (df : DataFrame)
    (tc dc : String)
    (hne : df.isEmptyDF = false)
    (htc : df.columns.contains tc = true) (hdc : df.columns.contains dc = true)
    (htext : ∀ c ∈ df.getCol tc, c.isText = true) :
    ∃ db', upsert_feature_last_dates db f (some df) tc dc = .ok db' ∧
      (∀ s, Cell.text s ∈ (featPairs df tc dc).map Prod.fst →
        get_last_feature_date db' f s =
          listMaxD (datesFor (featPairs df tc dc) (Cell.text s))) ∧
      (∀ s, Cell.text s ∉ (featPairs df tc dc).map Prod.fst →
        get_last_feature_date db' f s = get_last_feature_date db f s) := by
  refine ⟨(featWrites df tc dc).foldl (fun d p => featInsert d f p.1 p.2) db, ?_, ?_, ?_⟩
  · rw [upsert_feature_some, if_neg (by simp [hne]),
       if_neg (fun hcon => hcon.elim (fun hh => hh htc) (fun hh => hh hdc))]
  · intro s hs
    obtain ⟨m, hm⟩ := listMaxD_isSome (datesFor_ne_nil hs)
    have hw : (s, m) ∈ featWrites df tc dc := by
      unfold featWrites
      exact List.mem_map.2 ⟨(Cell.text s, m), mem_feat_last_by hs hm, by simp [cellStr]⟩
    have hla : lastAssoc (featWrites df tc dc) s = some m :=
      lastAssoc_of_nodup (featWrites_fst_nodup htext) hw
    rw [get_fold_featInsert, hla, hm]
  · intro s hs
    have hnm : s ∉ (featWrites df tc dc).map Prod.fst := by
      intro hmem
      unfold featWrites at hmem
      rw [List.map_map] at hmem
      obtain ⟨p, hp, hps⟩ := List.mem_map.1 hmem
      have hps2 : cellStr p.1 = s := hps
      have hp1 : p.1 ∈ (featPairs df tc dc).map Prod.fst :=
        feat_last_by_fst_sub (List.mem_map.2 ⟨p, hp, rfl⟩)
      have htx := htext p.1 (mem_pairs_fst_getCol hp1)
      cases hc : p.1 with
      | text u =>
        rw [hc] at hp1
        have hu : u = s := by
          rw [hc] at hps2
          simpa [cellStr] using hps2
        exact hs (hu ▸ hp1)
      | num dd =>
        rw [hc] at htx
        simp [Cell.isText] at htx
      | null =>
        rw [hc] at htx
        simp [Cell.isText] at htx
    rw [get_fold_featInsert, lastAssoc_of_not_mem hnm]

/-- C9 witness: AAPL rows dated 2024-01-02 and 2024-01-03 plus an MSFT
row dated 2024-01-05 (and one unparseable date) checkpoint AAPL at
2024-01-03 and MSFT at 2024-01-05, leaving other tickers untouched. -/
theorem claim_C9_witness :
    (∀ c ∈ DataFrame.getCol
        ⟨[("ticker", [Cell.text "AAPL", Cell.text "MSFT", Cell.text "AAPL", Cell.text "GOOG"]),
          ("date", [Cell.text "2024-01-02", Cell.text "2024-01-05",
            Cell.text "2024-01-03", Cell.text "garbage"])]⟩ "ticker",
      c.isText = true) ∧
    ∃ db', upsert_feature_last_dates [⟨"regime", "TSLA", "2023-12-31"⟩] "regime"
        (some ⟨[("ticker", [Cell.text "AAPL", Cell.text "MSFT", Cell.text "AAPL", Cell.text "GOOG"]),
          ("date", [Cell.text "2024-01-02", Cell.text "2024-01-05",
            Cell.text "2024-01-03", Cell.text "garbage"])]⟩) "ticker" "date" = .ok db' ∧
      (∀ s, Cell.text s ∈ (featPairs
          ⟨[("ticker", [Cell.text "AAPL", Cell.text "MSFT", Cell.text "AAPL", Cell.text "GOOG"]),
            ("date", [Cell.text "2024-01-02", Cell.text "2024-01-05",
              Cell.text "2024-01-03", Cell.text "garbage"])]⟩ "ticker" "date").map Prod.fst →
        get_last_feature_date db' "regime" s =
          listMaxD (datesFor (featPairs
            ⟨[("ticker", [Cell.text "AAPL", Cell.text "MSFT", Cell.text "AAPL", Cell.text "GOOG"]),
              ("date", [Cell.text "2024-01-02", Cell.text "2024-01-05",
                Cell.text "2024-01-03", Cell.text "garbage"])]⟩ "ticker" "date") (Cell.text s))) ∧
      (∀ s, Cell.text s ∉ (featPairs
          ⟨[("ticker", [Cell.text "AAPL", Cell.text "MSFT", Cell.text "AAPL", Cell.text "GOOG"]),
            ("date", [Cell.text "2024-01-02", Cell.text "2024-01-05",
              Cell.text "2024-01-03", Cell.text "garbage"])]⟩ "ticker" "date").map Prod.fst →
        get_last_feature_date db' "regime" s =
          get_last_feature_date [⟨"regime", "TSLA", "2023-12-31"⟩] "regime" s) :=
  ⟨by decide,
   claim_C9_per_ticker_max [⟨"regime", "TSLA", "2023-12-31"⟩] "regime"
     ⟨[("ticker", [Cell.text "AAPL", Cell.text "MSFT", Cell.text "AAPL", Cell.text "GOOG"]),
       ("date", [Cell.text "2024-01-02", Cell.text "2024-01-05",
         Cell.text "2024-01-03", Cell.text "garbage"])]⟩ "ticker" "date"
     rfl rfl rfl (by decide)⟩

end BloomDash
